import Mathlib

/-!
Verification development for the password-generation core of `pwdgen`
(`src/util/generate-password.worker.js`).

The worker is embedded shallowly:

* Machine numbers are modelled by `Nat`/`Int`/`ℚ` with explicit handling of the
  JavaScript corner cases that matter (division by zero producing `NaN`, the
  `-1` rejection limit for out-of-range bounds, out-of-range string indexing
  yielding the string `"undefined"`).
* The asynchronous entropy layer (`getRandomByte` backed by `randomPool`) is
  abstracted, for the single-consumer generation pipeline, by a stream
  `bytes : Nat → Except String Nat` giving the outcome of the `i`-th
  `getRandomByte()` call: either a byte, or the error thrown when a pool
  refill is rejected.  The pool itself, together with its concurrent callers,
  is modelled separately by an explicit state machine (`PoolState`/`PoolStep`).
* Wall-clock time is modelled by a stream `now : Nat → ℚ` of the successive
  `Date.now()` readings: `now 0` is the reading taken at the start of
  `generatePassword`, and `now (i + 1)` is the reading taken by the timeout
  check of loop iteration `i`.
* Potentially non-terminating loops take fuel and return `none` when the fuel
  runs out; `none` therefore means "did not terminate within the allotted
  number of loop iterations", never an actual result of the program.
-/

/-- Character classifications produced by the external `classifyCharacter`
collaborator (imported at line 6 of the worker).  The worker only ever reads
the counts of the four named classes; any further classification only
contributes to the total length, so a single `other` constructor suffices. -/
inductive CharClass where
  | uppercase
  | lowercase
  | digit
  | symbol
  | other
  deriving DecidableEq, Repr

/-- The `PasswordGenerationOptions` record consumed by the worker.  The three
proportion fields are JavaScript numbers used only in exact comparisons, so
they are modelled as rationals. -/
structure PasswordGenerationOptions where
  passwordLength : Nat
  useUppercase : Bool
  useLowercase : Bool
  useDigits : Bool
  useSymbols : Bool
  symbols : List Char
  minDigitProportion : ℚ
  minSymbolProportion : ℚ
  maxCaseVariance : ℚ

/-- Number of characters of `password` that `classify` maps to class `cls`:
the value of `characterCount.get(cls) || 0` after the counting loop of
`passwordIsValid` (worker lines 124–140). -/
def countClass (classify : Char → CharClass) (password : List Char) (cls : CharClass) : Nat :=
  (password.filter (fun ch => decide (classify ch = cls))).length

/-- Models the JavaScript comparison `num / den >= threshold` for the
non-negative integer counts used by `passwordIsValid`.  When `den = 0`
JavaScript does not skip the comparison: `0 / 0` is `NaN` and `NaN >= x` is
`false`, while `num / 0` for `num > 0` is `+Infinity`, and `Infinity >= x` is
`true` for every finite `x`.  For `den ≠ 0` this is the exact rational
comparison. -/
def jsRatioGe (num den : Nat) (threshold : ℚ) : Bool :=
  if den = 0 then
    if num = 0 then false else true
  else
    decide ((num : ℚ) / (den : ℚ) ≥ threshold)

/-- Embedding of `passwordIsValid(password, options)` (worker lines 122–153),
parametric in the external `classifyCharacter` collaborator. -/
def passwordIsValid (classify : Char → CharClass) (password : List Char)
    (options : PasswordGenerationOptions) : Bool :=
  let digits := countClass classify password .digit
  let symbols := countClass classify password .symbol
  let lowercase := countClass classify password .lowercase
  let uppercase := countClass classify password .uppercase
  let letters := lowercase + uppercase
  (!options.useDigits || jsRatioGe digits password.length options.minDigitProportion)
    && ((!(options.useSymbols && decide (0 < options.symbols.length)))
        || jsRatioGe symbols password.length options.minSymbolProportion)
    && ((!(decide (0 < letters) && options.useUppercase && options.useLowercase))
        || decide (2 * |(lowercase : ℚ) / (letters : ℚ) - 1 / 2| ≤ options.maxCaseVariance))

/-- The three validity conditions exactly as the specification states them,
with exact rational arithmetic (no `NaN`): used to compare the code's
`passwordIsValid` against the specified checks. -/
def specValidConds (classify : Char → CharClass) (password : List Char)
    (options : PasswordGenerationOptions) : Prop :=
  (options.useDigits = true →
    (countClass classify password .digit : ℚ) / (password.length : ℚ) ≥
      options.minDigitProportion)
  ∧ (options.useSymbols = true ∧ options.symbols ≠ [] →
      (countClass classify password .symbol : ℚ) / (password.length : ℚ) ≥
        options.minSymbolProportion)
  ∧ (0 < countClass classify password .lowercase + countClass classify password .uppercase ∧
        options.useUppercase = true ∧ options.useLowercase = true →
      2 * |(countClass classify password .lowercase : ℚ) /
            ((countClass classify password .lowercase +
              countClass classify password .uppercase : Nat) : ℚ) - 1 / 2| ≤
        options.maxCaseVariance)

instance (classify : Char → CharClass) (password : List Char)
    (options : PasswordGenerationOptions) :
    Decidable (specValidConds classify password options) := by
  unfold specValidConds
  infer_instance

/-- The rejection limit `Math.floor((0xff + 1) / bound) * bound - 1` of
`getRandomByteInRange` (worker line 108), computed in exact integer
arithmetic.  For `1 ≤ bound ≤ 256` this is the usual non-negative limit; for
`bound > 256` JavaScript yields `-1` (so every byte is rejected), which is why
the result type is `Int`.  It is never applied with `bound = 0`: that case
(`characters` empty) is handled separately in `drawChar`. -/
def grbLimit (bound : Nat) : Int := ((256 / bound * bound : Nat) : Int) - 1

/-- The value `(randomUint8 % bound) + min` returned by `getRandomByteInRange`
for an accepted byte (worker line 109). -/
def grbValue (min bound b : Nat) : Nat := b % bound + min

/-- Embedding of `getRandomByteInRange(min, max)` (worker lines 103–110) over
the byte stream, starting at stream position `pos`.  Returns the drawn value
together with the next stream position, `Except.error` if a draw throws, and
`none` if the rejection loop does not accept a byte within `fuel` draws. -/
def getRandomByteInRange (min max : Nat) (bytes : Nat → Except String Nat) (pos : Nat) :
    Nat → Option (Except String (Nat × Nat))
  | 0 => none
  | fuel + 1 =>
    match bytes pos with
    | .error msg => some (.error msg)
    | .ok b =>
      if (b : Int) > grbLimit (max - min + 1) then
        getRandomByteInRange min max bytes (pos + 1) fuel
      else
        some (.ok (grbValue min (max - min + 1) b, pos + 1))

/-- The characters of the string `"undefined"`. -/
def undefinedChars : List Char := ['u', 'n', 'd', 'e', 'f', 'i', 'n', 'e', 'd']

/-- One iteration of the string-building loop of `generateRandomString`
(worker line 168): `randomString += characters[await getRandomByteInRange(0,
characters.length - 1)]`.  For non-empty `characters` this draws one uniform
index (which is provably in bounds, so the `List.getD` default is dead code)
and appends that character.  For empty `characters` JavaScript evaluates
`getRandomByteInRange(0, -1)` with `bound = 0`: one byte is drawn, the loop
guard compares it against `NaN` and is `false` so the byte is accepted
immediately, the returned index `(byte % 0) + 0` is `NaN`,
`characters[NaN]` is `undefined`, and `+=` coerces it to the string
`"undefined"`. -/
def drawChar (chars : List Char) (bytes : Nat → Except String Nat) (pos fuel : Nat) :
    Option (Except String (List Char × Nat)) :=
  if chars.isEmpty then
    match bytes pos with
    | .error msg => some (.error msg)
    | .ok _ => some (.ok (undefinedChars, pos + 1))
  else
    match getRandomByteInRange 0 (chars.length - 1) bytes pos fuel with
    | none => none
    | some (.error msg) => some (.error msg)
    | some (.ok (idx, posNext)) => some (.ok ([chars.getD idx 'u'], posNext))

/-- Embedding of `generateRandomString(length, characters)` (worker lines
165–171): draws `length` characters left to right, threading the stream
position.  `fuel` bounds the rejection loop of each individual draw. -/
def generateRandomString (length : Nat) (characters : List Char)
    (bytes : Nat → Except String Nat) (pos fuel : Nat) :
    Option (Except String (List Char × Nat)) :=
  match length with
  | 0 => some (.ok ([], pos))
  | n + 1 =>
    match drawChar characters bytes pos fuel with
    | none => none
    | some (.error msg) => some (.error msg)
    | some (.ok (piece, pos1)) =>
      match generateRandomString n characters bytes pos1 fuel with
      | none => none
      | some (.error msg) => some (.error msg)
      | some (.ok (rest, pos2)) => some (.ok (piece ++ rest, pos2))

/-- The working alphabet assembled by `generatePassword` (worker lines
189–201): uppercase, then lowercase, then digits, then the caller-supplied
symbols, each segment present exactly when its flag is enabled. -/
def passwordChars (options : PasswordGenerationOptions) : List Char :=
  (if options.useUppercase then "ABCDEFGHIJKLMNOPQRSTUVWXYZ".toList else [])
    ++ (if options.useLowercase then "abcdefghijklmnopqrstuvwxyz".toList else [])
    ++ (if options.useDigits then "0123456789".toList else [])
    ++ (if options.useSymbols then options.symbols else [])

/-- The `do … while (!passwordIsValid(password, options))` loop of
`generatePassword` (worker lines 204–216).  `iter` numbers the loop
iterations so that the timeout check of iteration `iter` reads the clock
value `now (iter + 1)` and compares `Date.now() - startTime >= timeout * 1000`
with `startTime = now 0`.  The inner `Option` of a terminating run is the
JavaScript result: `none` is the `null` timeout sentinel, `some password` the
generated password. -/
def generatePasswordLoop (classify : Char → CharClass) (options : PasswordGenerationOptions)
    (timeout : ℚ) (bytes : Nat → Except String Nat) (now : Nat → ℚ)
    (innerFuel : Nat) (pos iter : Nat) :
    Nat → Option (Except String (Option (List Char)))
  | 0 => none
  | fuel + 1 =>
    match generateRandomString options.passwordLength (passwordChars options) bytes pos
        innerFuel with
    | none => none
    | some (.error msg) => some (.error msg)
    | some (.ok (password, posNext)) =>
      if now (iter + 1) - now 0 ≥ timeout * 1000 then
        some (.ok none)
      else if passwordIsValid classify password options then
        some (.ok (some password))
      else
        generatePasswordLoop classify options timeout bytes now innerFuel posNext (iter + 1) fuel

/-- Embedding of `generatePassword(options, timeout)` (worker lines 184–217):
assembles `passwordChars options` and runs the generation loop from stream
position `0` and iteration `0`. -/
def generatePassword (classify : Char → CharClass) (options : PasswordGenerationOptions)
    (timeout : ℚ) (bytes : Nat → Except String Nat) (now : Nat → ℚ)
    (innerFuel outerFuel : Nat) : Option (Except String (Option (List Char))) :=
  generatePasswordLoop classify options timeout bytes now innerFuel 0 0 outerFuel

/-- The three messages the worker's `REQUEST_GENERATE_PASSWORD` handler can
post back to the main thread (worker lines 230–251). -/
inductive WorkerResponse where
  | ok (password : List Char)
  | timeout
  | error (message : String)
  deriving DecidableEq

/-- Embedding of the response logic of the `REQUEST_GENERATE_PASSWORD` handler
(worker lines 220–258): a non-null password is posted with code `OK`, `null`
with code `TIMEOUT`, and a caught error with code `ERROR` carrying the error
message. -/
def workerResponse : Except String (Option (List Char)) → WorkerResponse
  | .error msg => .error msg
  | .ok none => .timeout
  | .ok (some password) => .ok password

/-! ### Helper lemmas about the sampling pipeline -/

theorem getRandomByteInRange_succ_error {min max : Nat} {bytes : Nat → Except String Nat}
    {pos fuel : Nat} {msg : String} (h : bytes pos = .error msg) :
    getRandomByteInRange min max bytes pos (fuel + 1) = some (.error msg) := by
  rw [getRandomByteInRange, h]

theorem getRandomByteInRange_succ_ok {min max : Nat} {bytes : Nat → Except String Nat}
    {pos fuel b : Nat} (h : bytes pos = .ok b) :
    getRandomByteInRange min max bytes pos (fuel + 1) =
      if (b : Int) > grbLimit (max - min + 1) then
        getRandomByteInRange min max bytes (pos + 1) fuel
      else
        some (.ok (grbValue min (max - min + 1) b, pos + 1)) := by
  rw [getRandomByteInRange, h]

theorem grbValue_bounds {min max : Nat} (h : min ≤ max) (b : Nat) :
    min ≤ grbValue min (max - min + 1) b ∧ grbValue min (max - min + 1) b ≤ max := by
  unfold grbValue
  have hlt : b % (max - min + 1) < max - min + 1 := Nat.mod_lt _ (Nat.succ_pos _)
  omega

theorem getRandomByteInRange_ok {min max : Nat} {bytes : Nat → Except String Nat}
    {pos fuel r posNext : Nat}
    (h : getRandomByteInRange min max bytes pos fuel = some (.ok (r, posNext))) :
    ∃ k, pos ≤ k ∧ posNext = k + 1 ∧
      (∀ j, pos ≤ j → j < k → ∃ bj, bytes j = .ok bj ∧ grbLimit (max - min + 1) < (bj : Int)) ∧
      ∃ bk, bytes k = .ok bk ∧ (bk : Int) ≤ grbLimit (max - min + 1) ∧
        r = grbValue min (max - min + 1) bk := by
  induction fuel generalizing pos with
  | zero => simp [getRandomByteInRange] at h
  | succ n ih =>
    cases hb : bytes pos with
    | error msg => rw [getRandomByteInRange_succ_error hb] at h; simp at h
    | ok b =>
      rw [getRandomByteInRange_succ_ok hb] at h
      by_cases hlim : (b : Int) > grbLimit (max - min + 1)
      · rw [if_pos hlim] at h
        obtain ⟨k, hk1, hk2, hk3, hk4⟩ := ih h
        refine ⟨k, by omega, hk2, ?_, hk4⟩
        intro j hj1 hj2
        rcases Nat.eq_or_lt_of_le hj1 with hj | hj
        · exact ⟨b, hj ▸ hb, hlim⟩
        · exact hk3 j hj hj2
      · rw [if_neg hlim] at h
        simp only [Option.some.injEq, Except.ok.injEq, Prod.mk.injEq] at h
        exact ⟨pos, Nat.le_refl _, h.2.symm, fun j hj1 hj2 => absurd (Nat.lt_of_le_of_lt hj1 hj2)
          (Nat.lt_irrefl _), b, hb, Int.not_lt.mp hlim, h.1.symm⟩

theorem getRandomByteInRange_ok_bounds {min max : Nat} {bytes : Nat → Except String Nat}
    {pos fuel r posNext : Nat} (hmm : min ≤ max)
    (h : getRandomByteInRange min max bytes pos fuel = some (.ok (r, posNext))) :
    min ≤ r ∧ r ≤ max := by
  obtain ⟨k, -, -, -, bk, -, -, hval⟩ := getRandomByteInRange_ok h
  rw [hval]
  exact grbValue_bounds hmm bk

theorem getRandomByteInRange_error {min max : Nat} {bytes : Nat → Except String Nat}
    {pos fuel : Nat} {msg : String}
    (h : getRandomByteInRange min max bytes pos fuel = some (.error msg)) :
    ∃ i, pos ≤ i ∧ bytes i = .error msg := by
  induction fuel generalizing pos with
  | zero => simp [getRandomByteInRange] at h
  | succ n ih =>
    cases hb : bytes pos with
    | error m =>
      rw [getRandomByteInRange_succ_error hb] at h
      simp only [Option.some.injEq, Except.error.injEq] at h
      exact ⟨pos, Nat.le_refl _, by rw [hb, h]⟩
    | ok b =>
      rw [getRandomByteInRange_succ_ok hb] at h
      by_cases hlim : (b : Int) > grbLimit (max - min + 1)
      · rw [if_pos hlim] at h
        obtain ⟨i, hi1, hi2⟩ := ih h
        exact ⟨i, by omega, hi2⟩
      · rw [if_neg hlim] at h; simp at h

theorem getRandomByteInRange_full_range {bytes : Nat → Except String Nat}
    {pos fuel b : Nat} (h : bytes pos = .ok b) (hb : b ≤ 255) :
    getRandomByteInRange 0 255 bytes pos (fuel + 1) = some (.ok (b, pos + 1)) := by
  have hlim : ¬ ((b : Int) > grbLimit (255 - 0 + 1)) := by
    have h255 : grbLimit (255 - 0 + 1) = 255 := by decide
    rw [h255]
    omega
  rw [getRandomByteInRange_succ_ok h, if_neg hlim]
  have hval : grbValue 0 (255 - 0 + 1) b = b := by
    unfold grbValue
    have : b % 256 = b := Nat.mod_eq_of_lt (by omega)
    omega
  rw [hval]

theorem drawChar_nil {bytes : Nat → Except String Nat} {pos fuel : Nat} {msg : String}
    (h : bytes pos = .error msg) :
    drawChar [] bytes pos fuel = some (.error msg) := by
  rw [drawChar]
  simp [h]

theorem drawChar_nil_ok {bytes : Nat → Except String Nat} {pos fuel b : Nat}
    (h : bytes pos = .ok b) :
    drawChar [] bytes pos fuel = some (.ok (undefinedChars, pos + 1)) := by
  rw [drawChar]
  simp [h]

theorem drawChar_ok {chars : List Char} {bytes : Nat → Except String Nat}
    {pos fuel : Nat} {piece : List Char} {posNext : Nat} (hne : chars ≠ [])
    (h : drawChar chars bytes pos fuel = some (.ok (piece, posNext))) :
    piece.length = 1 ∧ ∀ c ∈ piece, c ∈ chars := by
  rw [drawChar, if_neg (by simpa [List.isEmpty_iff] using hne)] at h
  split at h
  · exact absurd h (by simp)
  · exact absurd h (by simp)
  · rename_i idx posN hg
    simp only [Option.some.injEq, Except.ok.injEq, Prod.mk.injEq] at h
    obtain ⟨hpiece, -⟩ := h
    have hlen : 0 < chars.length := List.length_pos.mpr hne
    have hidx : idx < chars.length := by
      have := (getRandomByteInRange_ok_bounds (Nat.zero_le _) hg).2
      omega
    subst hpiece
    refine ⟨rfl, ?_⟩
    intro c hc
    simp only [List.mem_singleton] at hc
    subst hc
    rw [List.getD_eq_getElem chars 'u' hidx]
    exact List.getElem_mem hidx

theorem drawChar_ok_pos {chars : List Char} {bytes : Nat → Except String Nat}
    {pos fuel : Nat} {piece : List Char} {posNext : Nat}
    (h : drawChar chars bytes pos fuel = some (.ok (piece, posNext))) :
    pos < posNext := by
  rw [drawChar] at h
  split at h
  · split at h
    · exact absurd h (by simp)
    · simp only [Option.some.injEq, Except.ok.injEq, Prod.mk.injEq] at h
      omega
  · split at h
    · exact absurd h (by simp)
    · exact absurd h (by simp)
    · rename_i idx posN hg
      simp only [Option.some.injEq, Except.ok.injEq, Prod.mk.injEq] at h
      obtain ⟨k, hk1, hk2, -, -⟩ := getRandomByteInRange_ok hg
      omega

theorem drawChar_error {chars : List Char} {bytes : Nat → Except String Nat}
    {pos fuel : Nat} {msg : String}
    (h : drawChar chars bytes pos fuel = some (.error msg)) :
    ∃ i, pos ≤ i ∧ bytes i = .error msg := by
  rw [drawChar] at h
  split at h
  · split at h
    · rename_i hb
      simp only [Option.some.injEq, Except.error.injEq] at h
      exact ⟨pos, Nat.le_refl _, by rw [hb, h]⟩
    · exact absurd h (by simp)
  · split at h
    · exact absurd h (by simp)
    · rename_i hg
      simp only [Option.some.injEq, Except.error.injEq] at h
      exact h ▸ getRandomByteInRange_error hg
    · exact absurd h (by simp)

theorem drawChar_first_error {chars : List Char} {bytes : Nat → Except String Nat}
    {pos fuel : Nat} {msg : String} (h : bytes pos = .error msg) :
    drawChar chars bytes pos (fuel + 1) = some (.error msg) := by
  rw [drawChar]
  split
  · simp [h]
  · rw [getRandomByteInRange_succ_error h]

theorem generateRandomString_ok {len : Nat} {chars : List Char}
    {bytes : Nat → Except String Nat} {pos fuel : Nat} {s : List Char} {posNext : Nat}
    (hne : chars ≠ [])
    (h : generateRandomString len chars bytes pos fuel = some (.ok (s, posNext))) :
    s.length = len ∧ ∀ c ∈ s, c ∈ chars := by
  induction len generalizing pos s posNext with
  | zero =>
    rw [generateRandomString] at h
    simp only [Option.some.injEq, Except.ok.injEq, Prod.mk.injEq] at h
    obtain ⟨hs, -⟩ := h
    subst hs
    exact ⟨rfl, by simp⟩
  | succ n ih =>
    rw [generateRandomString] at h
    split at h
    · exact absurd h (by simp)
    · exact absurd h (by simp)
    · rename_i piece pos1 hd
      split at h
      · exact absurd h (by simp)
      · exact absurd h (by simp)
      · rename_i rest pos2 hrest
        simp only [Option.some.injEq, Except.ok.injEq, Prod.mk.injEq] at h
        obtain ⟨hs, -⟩ := h
        subst hs
        obtain ⟨hp1, hp2⟩ := drawChar_ok hne hd
        obtain ⟨hr1, hr2⟩ := ih hrest
        refine ⟨by simp [hp1, hr1]; omega, ?_⟩
        intro c hc
        rcases List.mem_append.mp hc with hc | hc
        · exact hp2 c hc
        · exact hr2 c hc

theorem generateRandomString_error {len : Nat} {chars : List Char}
    {bytes : Nat → Except String Nat} {pos fuel : Nat} {msg : String}
    (h : generateRandomString len chars bytes pos fuel = some (.error msg)) :
    ∃ i, pos ≤ i ∧ bytes i = .error msg := by
  induction len generalizing pos with
  | zero => rw [generateRandomString] at h; exact absurd h (by simp)
  | succ n ih =>
    rw [generateRandomString] at h
    split at h
    · exact absurd h (by simp)
    · rename_i hd
      simp only [Option.some.injEq, Except.error.injEq] at h
      exact h ▸ drawChar_error hd
    · rename_i piece pos1 hd
      split at h
      · exact absurd h (by simp)
      · rename_i hrest
        simp only [Option.some.injEq, Except.error.injEq] at h
        obtain ⟨i, hi1, hi2⟩ := ih (h ▸ hrest)
        have := drawChar_ok_pos hd
        exact ⟨i, by omega, hi2⟩
      · exact absurd h (by simp)

theorem generateRandomString_first_error {len : Nat} {chars : List Char}
    {bytes : Nat → Except String Nat} {pos fuel : Nat} {msg : String}
    (hlen : 0 < len) (h : bytes pos = .error msg) :
    generateRandomString len chars bytes pos (fuel + 1) = some (.error msg) := by
  cases len with
  | zero => omega
  | succ n =>
    rw [generateRandomString, drawChar_first_error h]

theorem generatePasswordLoop_null {classify : Char → CharClass}
    {options : PasswordGenerationOptions} {timeout : ℚ} {bytes : Nat → Except String Nat}
    {now : Nat → ℚ} {innerFuel pos iter fuel : Nat}
    (h : generatePasswordLoop classify options timeout bytes now innerFuel pos iter fuel =
      some (.ok none)) :
    ∃ i, iter ≤ i ∧ i < iter + fuel ∧ now (i + 1) - now 0 ≥ timeout * 1000 := by
  induction fuel generalizing pos iter with
  | zero => rw [generatePasswordLoop] at h; exact absurd h (by simp)
  | succ n ih =>
    rw [generatePasswordLoop] at h
    split at h
    · exact absurd h (by simp)
    · exact absurd h (by simp)
    · rename_i password posNext hgen
      split at h
      · rename_i htime
        exact ⟨iter, Nat.le_refl _, by omega, htime⟩
      · split at h
        · exact absurd h (by simp)
        · obtain ⟨i, hi1, hi2, hi3⟩ := ih h
          exact ⟨i, by omega, by omega, hi3⟩

theorem generatePasswordLoop_ok {classify : Char → CharClass}
    {options : PasswordGenerationOptions} {timeout : ℚ} {bytes : Nat → Except String Nat}
    {now : Nat → ℚ} {innerFuel pos iter fuel : Nat} {p : List Char}
    (h : generatePasswordLoop classify options timeout bytes now innerFuel pos iter fuel =
      some (.ok (some p))) :
    passwordIsValid classify p options = true ∧
      ∃ q qNext, generateRandomString options.passwordLength (passwordChars options) bytes q
        innerFuel = some (.ok (p, qNext)) := by
  induction fuel generalizing pos iter with
  | zero => rw [generatePasswordLoop] at h; exact absurd h (by simp)
  | succ n ih =>
    rw [generatePasswordLoop] at h
    split at h
    · exact absurd h (by simp)
    · exact absurd h (by simp)
    · rename_i password posNext hgen
      split at h
      · exact absurd h (by simp)
      · split at h
        · rename_i hvalid
          simp only [Option.some.injEq, Except.ok.injEq] at h
          subst h
          exact ⟨hvalid, pos, posNext, hgen⟩
        · exact ih h

theorem generatePasswordLoop_first {classify : Char → CharClass}
    {options : PasswordGenerationOptions} {timeout : ℚ} {bytes : Nat → Except String Nat}
    {now : Nat → ℚ} {innerFuel pos iter fuel : Nat} {x : Option (List Char)}
    (h : generatePasswordLoop classify options timeout bytes now innerFuel pos iter fuel =
      some (.ok x)) :
    ∃ s posNext, generateRandomString options.passwordLength (passwordChars options) bytes pos
      innerFuel = some (.ok (s, posNext)) := by
  cases fuel with
  | zero => rw [generatePasswordLoop] at h; exact absurd h (by simp)
  | succ n =>
    rw [generatePasswordLoop] at h
    split at h
    · exact absurd h (by simp)
    · exact absurd h (by simp)
    · rename_i password posNext hgen
      exact ⟨password, posNext, hgen⟩

theorem generatePasswordLoop_deadline {classify : Char → CharClass}
    {options : PasswordGenerationOptions} {timeout : ℚ} {bytes : Nat → Except String Nat}
    {now : Nat → ℚ} {innerFuel pos iter fuel : Nat} {s : List Char} {posNext : Nat}
    (hgen : generateRandomString options.passwordLength (passwordChars options) bytes pos
      innerFuel = some (.ok (s, posNext)))
    (htime : now (iter + 1) - now 0 ≥ timeout * 1000) :
    generatePasswordLoop classify options timeout bytes now innerFuel pos iter (fuel + 1) =
      some (.ok none) := by
  rw [generatePasswordLoop, hgen]
  simp only [if_pos htime]

theorem generatePasswordLoop_error {classify : Char → CharClass}
    {options : PasswordGenerationOptions} {timeout : ℚ} {bytes : Nat → Except String Nat}
    {now : Nat → ℚ} {innerFuel pos iter fuel : Nat} {msg : String}
    (h : generatePasswordLoop classify options timeout bytes now innerFuel pos iter fuel =
      some (.error msg)) :
    ∃ i, bytes i = .error msg := by
  induction fuel generalizing pos iter with
  | zero => rw [generatePasswordLoop] at h; exact absurd h (by simp)
  | succ n ih =>
    rw [generatePasswordLoop] at h
    split at h
    · exact absurd h (by simp)
    · rename_i hgen
      simp only [Option.some.injEq, Except.error.injEq] at h
      obtain ⟨i, -, hi⟩ := generateRandomString_error (h ▸ hgen)
      exact ⟨i, hi⟩
    · rename_i password posNext hgen
      split at h
      · exact absurd h (by simp)
      · split at h
        · exact absurd h (by simp)
        · exact ih h

/-! ### Helper lemmas about the validator -/

theorem passwordIsValid_iff_spec {classify : Char → CharClass} {password : List Char}
    {options : PasswordGenerationOptions} (hne : password ≠ []) :
    passwordIsValid classify password options = true ↔
      specValidConds classify password options := by
  have hlen : password.length ≠ 0 := fun h => hne (List.length_eq_zero.mp h)
  unfold passwordIsValid specValidConds jsRatioGe
  simp only [if_neg hlen, Bool.and_eq_true, Bool.or_eq_true, Bool.not_eq_true',
    decide_eq_true_eq, List.length_pos, ne_eq]
  constructor
  · rintro ⟨⟨h1, h2⟩, h3⟩
    refine ⟨?_, ?_, ?_⟩
    · intro hd
      rcases h1 with h1 | h1
      · rw [hd] at h1; exact absurd h1 (by simp)
      · exact h1
    · rintro ⟨hs, hsne⟩
      rcases h2 with h2 | h2
      · rw [hs] at h2
        simp only [Bool.true_and, decide_eq_false_iff_not, List.length_pos] at h2
        exact absurd hsne h2
      · exact h2
    · rintro ⟨hl, hu, hlo⟩
      rcases h3 with h3 | h3
      · rw [hu, hlo] at h3
        simp only [Bool.and_true, decide_eq_false_iff_not] at h3
        exact absurd hl h3
      · exact h3
  · rintro ⟨h1, h2, h3⟩
    refine ⟨⟨?_, ?_⟩, ?_⟩
    · cases hd : options.useDigits with
      | false => exact Or.inl rfl
      | true => exact Or.inr (h1 hd)
    · cases hs : options.useSymbols with
      | false => exact Or.inl (by simp [hs])
      | true =>
        cases hsl : decide (options.symbols ≠ []) with
        | false =>
          refine Or.inl ?_
          simp only [decide_eq_false_iff_not, ne_eq, Not] at hsl
          simp [List.length_pos, hsl]
        | true =>
          simp only [decide_eq_true_eq] at hsl
          exact Or.inr (h2 ⟨hs, hsl⟩)
    · by_cases hl : 0 < countClass classify password CharClass.lowercase +
        countClass classify password CharClass.uppercase
      · cases hu : options.useUppercase with
        | false => exact Or.inl (by simp [hu])
        | true =>
          cases hlo : options.useLowercase with
          | false => exact Or.inl (by simp [hlo])
          | true => exact Or.inr (h3 ⟨hl, hu, hlo⟩)
      · exact Or.inl (by simp [hl])

theorem passwordIsValid_variance_irrelevant {classify : Char → CharClass}
    {password : List Char} {options : PasswordGenerationOptions}
    (h : countClass classify password .lowercase + countClass classify password .uppercase = 0)
    (v : ℚ) :
    passwordIsValid classify password { options with maxCaseVariance := v } =
      passwordIsValid classify password options := by
  unfold passwordIsValid
  simp [h]

theorem passwordIsValid_nil {classify : Char → CharClass}
    {options : PasswordGenerationOptions} :
    passwordIsValid classify [] options =
      (!options.useDigits && !(options.useSymbols && decide (0 < options.symbols.length))) := by
  unfold passwordIsValid jsRatioGe countClass
  simp

/-! ### The random byte pool and its concurrent callers -/

/-- State of one logical `getRandomByte()` call running against the shared
`randomPool` (worker lines 75–90): `idle` is a call about to execute the
function body from the top (both a fresh call and the recursive retry of line
89), `awaiting` is suspended on `await regenerateRandomPool()` (line 78),
`resumed` has returned from the `await` and is about to re-check exhaustion
(line 82), `done b` has returned byte `b`, and `failed msg` has had the
rejection of the regeneration promise propagate out of the `await`. -/
inductive CallerState where
  | idle
  | awaiting
  | resumed
  | done (b : Nat)
  | failed (msg : String)
  deriving DecidableEq

/-- Effect of the regeneration promise resolving on one caller: every caller
suspended on the promise is resumed, every other caller is untouched. -/
def resumeOk : CallerState → CallerState
  | .awaiting => .resumed
  | st => st

/-- Effect of the regeneration promise rejecting on one caller: every caller
suspended on the promise receives the rejection (the `await` throws), every
other caller is untouched. -/
def resumeFail (msg : String) : CallerState → CallerState
  | .awaiting => .failed msg
  | st => st

/-- The `randomPool` record (worker lines 12–21) together with the states of
the concurrent `getRandomByte()` callers and two bookkeeping counters for the
entropy-source boundary: `outstanding` counts `REQUEST_GET_RANDOM_BYTES`
messages posted but not yet answered, and `issued` counts all such messages
ever posted.  `regenerating` records whether `regenerationPromise` is
non-null. -/
structure PoolState where
  buffer : List Nat
  numRead : Nat
  regenerating : Bool
  outstanding : Nat
  issued : Nat
  callers : Nat → CallerState

/-- The synchronous read path of `getRandomByte` (worker lines 82–86): caller
`c` reads `buffer[numRead]` and increments `numRead`, atomically (there is no
`await` between the bounds check and the read). -/
def readState (s : PoolState) (c : Nat) : PoolState :=
  { s with numRead := s.numRead + 1,
           callers := Function.update s.callers c (.done (s.buffer.getD s.numRead 0)) }

/-- `regenerateRandomPool` when no regeneration is in progress (worker lines
30–63): the promise is created, the response listener is installed and
`REQUEST_GET_RANDOM_BYTES` is posted, all synchronously; caller `c` then
suspends on the promise. -/
def startRefillState (s : PoolState) (c : Nat) : PoolState :=
  { s with regenerating := true, outstanding := s.outstanding + 1, issued := s.issued + 1,
           callers := Function.update s.callers c .awaiting }

/-- `regenerateRandomPool` when a regeneration is already in progress (worker
lines 30 and 65): the existing promise is returned and caller `c` suspends on
it; no new request is posted. -/
def joinRefillState (s : PoolState) (c : Nat) : PoolState :=
  { s with callers := Function.update s.callers c .awaiting }

/-- The `RESPONSE_GET_RANDOM_BYTES` handler on success (worker lines 35–42):
in one synchronous step the buffer is replaced by the response bytes,
`numRead` is reset to `0`, `regenerationPromise` is cleared and the promise is
resolved, waking every awaiting caller. -/
def refillOkState (s : PoolState) (newBuf : List Nat) : PoolState :=
  { buffer := newBuf, numRead := 0, regenerating := false,
    outstanding := s.outstanding - 1, issued := s.issued,
    callers := fun i => resumeOk (s.callers i) }

/-- The `RESPONSE_GET_RANDOM_BYTES` handler on failure (worker lines 35–45):
the same synchronous bookkeeping, but the promise is rejected with the
reported message, so every awaiting caller receives the failure. -/
def refillFailState (s : PoolState) (newBuf : List Nat) (msg : String) : PoolState :=
  { buffer := newBuf, numRead := 0, regenerating := false,
    outstanding := s.outstanding - 1, issued := s.issued,
    callers := fun i => resumeFail msg (s.callers i) }

/-- The recursive retry of `getRandomByte` (worker line 89): a resumed caller
that finds the buffer exhausted again starts the whole operation over. -/
def retryState (s : PoolState) (c : Nat) : PoolState :=
  { s with callers := Function.update s.callers c .idle }

/-- One scheduler step of the worker's event loop acting on the pool: every
transition corresponds to one maximal synchronous run of some caller or of
the response handler. -/
inductive PoolStep : PoolState → PoolState → Prop where
  | readIdle (s : PoolState) (c : Nat) :
      s.callers c = .idle → s.numRead < s.buffer.length →
      PoolStep s (readState s c)
  | startRefill (s : PoolState) (c : Nat) :
      s.callers c = .idle → s.buffer.length ≤ s.numRead → s.regenerating = false →
      PoolStep s (startRefillState s c)
  | joinRefill (s : PoolState) (c : Nat) :
      s.callers c = .idle → s.buffer.length ≤ s.numRead → s.regenerating = true →
      PoolStep s (joinRefillState s c)
  | refillOk (s : PoolState) (newBuf : List Nat) :
      s.regenerating = true →
      PoolStep s (refillOkState s newBuf)
  | refillFail (s : PoolState) (newBuf : List Nat) (msg : String) :
      s.regenerating = true →
      PoolStep s (refillFailState s newBuf msg)
  | resumeRead (s : PoolState) (c : Nat) :
      s.callers c = .resumed → s.numRead < s.buffer.length →
      PoolStep s (readState s c)
  | resumeRetry (s : PoolState) (c : Nat) :
      s.callers c = .resumed → s.buffer.length ≤ s.numRead →
      PoolStep s (retryState s c)

/-- The initial `randomPool` (worker lines 12–21): a 65536-byte buffer with
`numRead` already at 65536 so that the first call triggers a regeneration,
and no regeneration in progress. -/
def initPool : PoolState :=
  { buffer := List.replicate 65536 0, numRead := 65536, regenerating := false,
    outstanding := 0, issued := 0, callers := fun _ => .idle }

/-- Pool states reachable from the initial state by scheduler steps. -/
inductive PoolReachable : PoolState → Prop where
  | init : PoolReachable initPool
  | step {s t : PoolState} : PoolReachable s → PoolStep s t → PoolReachable t

theorem poolStep_inv {s t : PoolState} (hstep : PoolStep s t)
    (ih1 : s.numRead ≤ s.buffer.length)
    (ih2 : s.outstanding = (if s.regenerating then 1 else 0)) :
    t.numRead ≤ t.buffer.length ∧ t.outstanding = (if t.regenerating then 1 else 0) := by
  cases hstep with
  | readIdle c hc hn =>
    exact ⟨by simp only [readState]; omega, ih2⟩
  | startRefill c hc hn hreg =>
    have h0 : s.outstanding = 0 := by rw [ih2, hreg]; rfl
    refine ⟨ih1, ?_⟩
    simp only [startRefillState, h0]
    simp
  | joinRefill c hc hn hreg =>
    exact ⟨ih1, ih2⟩
  | refillOk newBuf hreg =>
    have h1 : s.outstanding = 1 := by rw [ih2, hreg]; rfl
    refine ⟨?_, ?_⟩ <;> simp only [refillOkState, h1] <;> simp
  | refillFail newBuf msg hreg =>
    have h1 : s.outstanding = 1 := by rw [ih2, hreg]; rfl
    refine ⟨?_, ?_⟩ <;> simp only [refillFailState, h1] <;> simp
  | resumeRead c hc hn =>
    exact ⟨by simp only [readState]; omega, ih2⟩
  | resumeRetry c hc hn =>
    exact ⟨ih1, ih2⟩

theorem poolReachable_inv {s : PoolState} (h : PoolReachable s) :
    s.numRead ≤ s.buffer.length ∧ s.outstanding = (if s.regenerating then 1 else 0) := by
  induction h with
  | init =>
    refine ⟨?_, rfl⟩
    simp only [initPool, List.length_replicate]
    exact Nat.le_refl _
  | step hr hs ih => exact poolStep_inv hs ih.1 ih.2

theorem poolStep_issued_of_regenerating {s t : PoolState} (hstep : PoolStep s t)
    (hreg : s.regenerating = true) : t.issued = s.issued := by
  cases hstep with
  | readIdle c hc hn => rfl
  | startRefill c hc hn hreg2 => rw [hreg] at hreg2; simp at hreg2
  | joinRefill c hc hn hreg2 => rfl
  | refillOk newBuf hreg2 => rfl
  | refillFail newBuf msg hreg2 => rfl
  | resumeRead c hc hn => rfl
  | resumeRetry c hc hn => rfl

theorem poolStep_refill_completion {s t : PoolState} (hstep : PoolStep s t)
    (hreg : s.regenerating = true) (hreg2 : t.regenerating = false) :
    t.numRead = 0 := by
  cases hstep with
  | readIdle c hc hn => simp only [readState] at hreg2; rw [hreg] at hreg2; simp at hreg2
  | startRefill c hc hn hregf => rw [hreg] at hregf; simp at hregf
  | joinRefill c hc hn hregt => simp only [joinRefillState] at hreg2; rw [hreg] at hreg2; simp at hreg2
  | refillOk newBuf hregt => rfl
  | refillFail newBuf msg hregt => rfl
  | resumeRead c hc hn => simp only [readState] at hreg2; rw [hreg] at hreg2; simp at hreg2
  | resumeRetry c hc hn => simp only [retryState] at hreg2; rw [hreg] at hreg2; simp at hreg2

theorem poolStep_resumed_cases {s t : PoolState} {c : Nat} (hstep : PoolStep s t)
    (hc : s.callers c = .resumed) :
    t.callers c = .resumed ∨
      (s.numRead < s.buffer.length ∧ t.callers c = .done (s.buffer.getD s.numRead 0)) ∨
      (s.buffer.length ≤ s.numRead ∧ t.callers c = .idle) := by
  cases hstep with
  | readIdle c2 hc2 hn =>
    left
    have hne : c ≠ c2 := fun h => by rw [h, hc2] at hc; cases hc
    simp only [readState]
    rw [Function.update_noteq hne]
    exact hc
  | startRefill c2 hc2 hn hreg =>
    left
    have hne : c ≠ c2 := fun h => by rw [h, hc2] at hc; cases hc
    simp only [startRefillState]
    rw [Function.update_noteq hne]
    exact hc
  | joinRefill c2 hc2 hn hreg =>
    left
    have hne : c ≠ c2 := fun h => by rw [h, hc2] at hc; cases hc
    simp only [joinRefillState]
    rw [Function.update_noteq hne]
    exact hc
  | refillOk newBuf hreg =>
    left
    simp only [refillOkState]
    rw [hc]
    rfl
  | refillFail newBuf msg hreg =>
    left
    simp only [refillFailState]
    rw [hc]
    rfl
  | resumeRead c2 hc2 hn =>
    by_cases hcc : c = c2
    · subst hcc
      right; left
      exact ⟨hn, by simp only [readState]; rw [Function.update_same]⟩
    · left
      simp only [readState]
      rw [Function.update_noteq hcc]
      exact hc
  | resumeRetry c2 hc2 hn =>
    by_cases hcc : c = c2
    · subst hcc
      right; right
      exact ⟨hn, by simp only [retryState]; rw [Function.update_same]⟩
    · left
      simp only [retryState]
      rw [Function.update_noteq hcc]
      exact hc

/-! ### Counting lemmas for the rejection sampler -/

theorem filter_mod_card (span t q : Nat) (hspan : 0 < span) (ht : t < span) :
    ((Finset.range (q * span)).filter (fun b => b % span = t)).card = q := by
  have himg : (Finset.range (q * span)).filter (fun b => b % span = t) =
      (Finset.range q).image (fun i => i * span + t) := by
    ext b
    simp only [Finset.mem_filter, Finset.mem_range, Finset.mem_image]
    constructor
    · rintro ⟨hb, hmod⟩
      refine ⟨b / span, (Nat.div_lt_iff_lt_mul hspan).mpr hb, ?_⟩
      have hdm : span * (b / span) + b % span = b := Nat.div_add_mod b span
      rw [Nat.mul_comm] at hdm
      rw [hmod] at hdm
      exact hdm
    · rintro ⟨i, hi, rfl⟩
      have h1 : (i + 1) * span ≤ q * span := Nat.mul_le_mul_right span hi
      have h2 : (i + 1) * span = i * span + span := by ring
      refine ⟨by omega, ?_⟩
      rw [Nat.mul_comm i span, Nat.mul_add_mod]
      exact Nat.mod_eq_of_lt ht
  rw [himg, Finset.card_image_of_injective, Finset.card_range]
  intro a b hab
  simp only at hab
  have hab2 : a * span = b * span := by omega
  exact Nat.eq_of_mul_eq_mul_right hspan hab2

theorem grb_accept_count {min max r : Nat} (h1 : min ≤ max) (h2 : max ≤ 255)
    (h3 : min ≤ r) (h4 : r ≤ max) :
    ((Finset.range 256).filter
      (fun (b : Nat) => (b : Int) ≤ grbLimit (max - min + 1) ∧
        grbValue min (max - min + 1) b = r)).card = 256 / (max - min + 1) := by
  have hspan : 0 < max - min + 1 := by omega
  have hs256 : max - min + 1 ≤ 256 := by omega
  have hqs : 256 / (max - min + 1) * (max - min + 1) ≤ 256 := Nat.div_mul_le_self 256 _
  have hq1 : 1 ≤ 256 / (max - min + 1) := (Nat.one_le_div_iff hspan).mpr hs256
  have hpred : ∀ b : Nat, ((b : Int) ≤ grbLimit (max - min + 1) ∧
      grbValue min (max - min + 1) b = r) ↔
      (b < 256 / (max - min + 1) * (max - min + 1) ∧ b % (max - min + 1) = r - min) := by
    intro b
    unfold grbLimit grbValue
    have hmlt : b % (max - min + 1) < max - min + 1 := Nat.mod_lt _ hspan
    constructor
    · rintro ⟨ha, hb⟩
      constructor
      · omega
      · omega
    · rintro ⟨ha, hb⟩
      constructor
      · omega
      · omega
  rw [Finset.filter_congr (fun b _ => hpred b)]
  have hrange : (Finset.range 256).filter
      (fun b => b < 256 / (max - min + 1) * (max - min + 1) ∧ b % (max - min + 1) = r - min) =
      (Finset.range (256 / (max - min + 1) * (max - min + 1))).filter
        (fun b => b % (max - min + 1) = r - min) := by
    ext b
    simp only [Finset.mem_filter, Finset.mem_range]
    exact ⟨fun h => ⟨h.2.1, h.2.2⟩, fun h => ⟨Nat.lt_of_lt_of_le h.1 hqs, h.1, h.2⟩⟩
  rw [hrange, filter_mod_card _ _ _ hspan (by omega)]

/-! ### Concrete fixtures used by witnesses and counterexamples -/

/-- A classifier instance that maps every character to `other`. -/
def otherClassify : Char → CharClass := fun _ => .other

/-- A concrete ASCII classifier instance for exercising the validator. -/
def asciiClassify (c : Char) : CharClass :=
  if 'A' ≤ c ∧ c ≤ 'Z' then .uppercase
  else if 'a' ≤ c ∧ c ≤ 'z' then .lowercase
  else if '0' ≤ c ∧ c ≤ '9' then .digit
  else .other

/-- A byte stream that always succeeds with byte 0. -/
def zeroBytes : Nat → Except String Nat := fun _ => .ok 0

/-- A byte stream whose first draw reports an entropy failure. -/
def failBytes : Nat → Except String Nat := fun _ => .error "boom"

/-- A clock whose every reading is 0 (no time passes). -/
def zeroClock : Nat → ℚ := fun _ => 0

/-- Options with every character class disabled: the assembled alphabet is
empty. -/
def degenerateOptions : PasswordGenerationOptions :=
  { passwordLength := 1, useUppercase := false, useLowercase := false, useDigits := false,
    useSymbols := false, symbols := [], minDigitProportion := 0, minSymbolProportion := 0,
    maxCaseVariance := 0 }

/-- Options that enable only lowercase letters. -/
def lowercaseOptions : PasswordGenerationOptions :=
  { passwordLength := 2, useUppercase := false, useLowercase := true, useDigits := false,
    useSymbols := false, symbols := [], minDigitProportion := 0, minSymbolProportion := 0,
    maxCaseVariance := 0 }

/-- Options requiring digits (with threshold 0) but enabling no class. -/
def emptyDigitOptions : PasswordGenerationOptions :=
  { passwordLength := 0, useUppercase := false, useLowercase := false, useDigits := true,
    useSymbols := false, symbols := [], minDigitProportion := 0, minSymbolProportion := 0,
    maxCaseVariance := 0 }

/-- Options enabling both letter cases with a tight case-variance bound. -/
def caseOptions : PasswordGenerationOptions :=
  { passwordLength := 8, useUppercase := true, useLowercase := true, useDigits := false,
    useSymbols := false, symbols := [], minDigitProportion := 0, minSymbolProportion := 0,
    maxCaseVariance := 1 / 10 }

/-- A pool state with one refill outstanding and every caller awaiting it. -/
def onePendingPool : PoolState :=
  { buffer := [], numRead := 0, regenerating := true, outstanding := 1, issued := 1,
    callers := fun _ => .awaiting }

/-- A pool state with one refill outstanding and every caller idle. -/
def exhaustedPool : PoolState :=
  { buffer := [], numRead := 0, regenerating := true, outstanding := 1, issued := 1,
    callers := fun _ => .idle }

/-! ### Claim C1 -/

/-- C1 counterexample: with every character class disabled the assembled
alphabet `passwordChars degenerateOptions` is empty, so each loop iteration of
`generateRandomString` appends the 9-character string `"undefined"`
(JavaScript `characters[NaN]` is `undefined` and `+=` coerces it); with all
checks structurally disabled the candidate is valid and is returned.  The
returned password has length 9, not `passwordLength = 1`, and its characters
are not drawn from the (empty) alphabet, refuting the claim as stated for
every options. -/
theorem C1_counterexample :
    generatePassword otherClassify degenerateOptions 1 zeroBytes zeroClock 2 2 =
      some (.ok (some undefinedChars)) ∧
    undefinedChars.length ≠ degenerateOptions.passwordLength ∧
    ¬ (∀ c ∈ undefinedChars, c ∈ passwordChars degenerateOptions) := by
  refine ⟨?_, by decide, by decide⟩
  norm_num [generatePassword, generatePasswordLoop, generateRandomString, drawChar,
    getRandomByteInRange, grbLimit, grbValue, passwordIsValid, countClass, jsRatioGe,
    passwordChars, undefinedChars, degenerateOptions, otherClassify, zeroBytes, zeroClock]

/-- C1 (amended): for every options whose assembled working alphabet is
non-empty, if `generatePassword` returns a non-null password `p` then
`passwordIsValid p options` is true, `p` has exactly
`options.passwordLength` characters, and every character of `p` belongs to
the working alphabet `passwordChars options` (uppercase, then lowercase, then
digits, then symbols, in this fixed order). -/
theorem C1_generatePassword_valid {classify : Char → CharClass}
    {options : PasswordGenerationOptions} {timeout : ℚ} {bytes : Nat → Except String Nat}
    {now : Nat → ℚ} {innerFuel outerFuel : Nat} {p : List Char}
    (halpha : passwordChars options ≠ [])
    (h : generatePassword classify options timeout bytes now innerFuel outerFuel =
      some (.ok (some p))) :
    passwordIsValid classify p options = true ∧
      p.length = options.passwordLength ∧ ∀ c ∈ p, c ∈ passwordChars options := by
  obtain ⟨hvalid, q, qNext, hgen⟩ := generatePasswordLoop_ok h
  obtain ⟨hlen, hmem⟩ := generateRandomString_ok halpha hgen
  exact ⟨hvalid, hlen, hmem⟩

/-- C1 witness: a concrete run with only lowercase enabled returns "aa",
which is valid, has the requested length 2, and draws from the alphabet. -/
theorem C1_witness :
    passwordChars lowercaseOptions ≠ [] ∧
    (passwordIsValid otherClassify ['a', 'a'] lowercaseOptions = true ∧
      (['a', 'a'] : List Char).length = lowercaseOptions.passwordLength ∧
      ∀ c ∈ (['a', 'a'] : List Char), c ∈ passwordChars lowercaseOptions) := by
  have hne : passwordChars lowercaseOptions ≠ [] := by decide
  have hrun : generatePassword otherClassify lowercaseOptions 1 zeroBytes zeroClock 2 3 =
      some (.ok (some ['a', 'a'])) := by
    norm_num [generatePassword, generatePasswordLoop, generateRandomString, drawChar,
      getRandomByteInRange, grbLimit, grbValue, passwordIsValid, countClass, jsRatioGe,
      passwordChars, lowercaseOptions, otherClassify, zeroBytes, zeroClock]
  exact ⟨hne, C1_generatePassword_valid hne hrun⟩

/-! ### Claim C2 -/

/-- C2: for `0 ≤ min ≤ max ≤ 255`, `getRandomByteInRange` computes
`limit = floor(256 / span) * span - 1` with `span = max - min + 1`, discards
every draw greater than the limit, returns `(firstAcceptedByte mod span) +
min` which lies in `[min, max]`; and when `span = 256` the limit is `255` and
the first draw (a byte, hence at most 255) is never rejected. -/
theorem C2_getRandomByteInRange_spec {min max : Nat} (bytes : Nat → Except String Nat)
    (pos fuel : Nat) (h1 : min ≤ max) (h2 : max ≤ 255) :
    (∀ r posNext, getRandomByteInRange min max bytes pos fuel = some (.ok (r, posNext)) →
      min ≤ r ∧ r ≤ max ∧
        ∃ k, pos ≤ k ∧ posNext = k + 1 ∧
          (∀ j, pos ≤ j → j < k →
            ∃ bj, bytes j = .ok bj ∧ grbLimit (max - min + 1) < (bj : Int)) ∧
          ∃ bk, bytes k = .ok bk ∧ (bk : Int) ≤ grbLimit (max - min + 1) ∧
            r = grbValue min (max - min + 1) bk) ∧
    (max - min + 1 = 256 →
      grbLimit (max - min + 1) = 255 ∧
      ∀ b, bytes pos = .ok b → b ≤ 255 →
        getRandomByteInRange min max bytes pos (fuel + 1) =
          some (.ok (grbValue min (max - min + 1) b, pos + 1))) := by
  constructor
  · intro r posNext h
    obtain ⟨hb1, hb2⟩ := getRandomByteInRange_ok_bounds h1 h
    exact ⟨hb1, hb2, getRandomByteInRange_ok h⟩
  · intro hspan
    have hmin : min = 0 := by omega
    have hmax : max = 255 := by omega
    subst hmin
    subst hmax
    refine ⟨by decide, ?_⟩
    intro b hb hb255
    rw [getRandomByteInRange_full_range hb hb255]
    have hval : grbValue 0 (255 - 0 + 1) b = b := by
      unfold grbValue
      have : b % 256 = b := Nat.mod_eq_of_lt (by omega)
      omega
    rw [hval]

/-- C2 witness: the full range `[0, 255]` accepts the first drawn byte with
limit 255, and a concrete in-range draw is returned unchanged. -/
theorem C2_witness :
    grbLimit (255 - 0 + 1) = 255 ∧
    getRandomByteInRange 0 255 zeroBytes 0 1 =
      some (.ok (grbValue 0 (255 - 0 + 1) 0, 0 + 1)) := by
  have h := (@C2_getRandomByteInRange_spec 0 255 zeroBytes 0 0 (by decide) (by decide)).2
    (by decide)
  exact ⟨h.1, h.2 0 rfl (by decide)⟩

/-! ### Claim C3 -/

/-- C3: for every range `[min, max] ⊆ [0, 255]` with `span = max - min + 1`,
each result value `r ∈ [min, max]` is produced by exactly `floor(256 / span)`
of the 256 byte values: those that pass the rejection test
(`byte ≤ grbLimit span`) and map to `r` under `grbValue`.  Hence a uniform
byte source yields each value of the range with equal probability. -/
theorem C3_no_modulo_bias {min max r : Nat} (h1 : min ≤ max) (h2 : max ≤ 255)
    (h3 : min ≤ r) (h4 : r ≤ max) :
    ((Finset.range 256).filter
      (fun (b : Nat) => (b : Int) ≤ grbLimit (max - min + 1) ∧
        grbValue min (max - min + 1) b = r)).card = 256 / (max - min + 1) :=
  grb_accept_count h1 h2 h3 h4

/-- C3 witness: for the range `[0, 9]` (span 10) the value 3 is produced by
exactly `floor(256 / 10) = 25` byte values. -/
theorem C3_witness :
    ((Finset.range 256).filter
      (fun (b : Nat) => (b : Int) ≤ grbLimit (9 - 0 + 1) ∧
        grbValue 0 (9 - 0 + 1) b = 3)).card = 256 / (9 - 0 + 1) ∧
    256 / (9 - 0 + 1) = 25 :=
  ⟨@C3_no_modulo_bias 0 9 3 (by decide) (by decide) (by decide) (by decide), by decide⟩

/-! ### Claim C4 -/

/-- C4 counterexample: for the empty password with `useDigits` enabled and
`minDigitProportion = 0`, the claimed conditions all hold (the digit
condition reads `0 / 0 ≥ 0`, which is true in exact arithmetic, and the other
two checks are structurally disabled), yet the code returns `false`, because
JavaScript evaluates `0 / 0` to `NaN` and `NaN >= 0` is `false`.  So
`passwordIsValid` is not equivalent to the claimed conditions for every
password. -/
theorem C4_counterexample :
    passwordIsValid otherClassify [] emptyDigitOptions = false ∧
    specValidConds otherClassify [] emptyDigitOptions := by
  constructor
  · decide
  · norm_num [specValidConds, countClass, emptyDigitOptions]

/-- C4 (amended): for every non-empty password, `passwordIsValid` returns
true exactly when the three specified conditions hold: the digit proportion
check when `useDigits`, the symbol proportion check when `useSymbols` with a
non-empty symbol set, and the case-balance check when letters are present and
both cases are enabled; a check whose enabling condition is false is exempt.
For the empty password the enabled digit/symbol checks fail instead (NaN
comparison), so the equivalence as claimed does not extend to it. -/
theorem C4_passwordIsValid_iff {classify : Char → CharClass} {password : List Char}
    {options : PasswordGenerationOptions} (hne : password ≠ []) :
    passwordIsValid classify password options = true ↔
      specValidConds classify password options :=
  passwordIsValid_iff_spec hne

/-- C4 witness: the balanced password "AAAAaaaa" under both-cases options
with variance bound 1/10. -/
theorem C4_witness :
    (['A', 'A', 'A', 'A', 'a', 'a', 'a', 'a'] : List Char) ≠ [] ∧
    (passwordIsValid asciiClassify ['A', 'A', 'A', 'A', 'a', 'a', 'a', 'a'] caseOptions = true ↔
      specValidConds asciiClassify ['A', 'A', 'A', 'A', 'a', 'a', 'a', 'a'] caseOptions) :=
  ⟨by decide, C4_passwordIsValid_iff (by decide)⟩

/-! ### Claim C5 -/

/-- C5 counterexample: for the empty password the digit-proportion check has
denominator 0; were it skipped as claimed, the empty password would be valid
under `emptyDigitOptions` (all other checks disabled).  It is invalid:
disabling `useDigits` — and changing nothing else — flips the result, so the
zero-denominator check was evaluated (to false), not skipped. -/
theorem C5_counterexample :
    passwordIsValid otherClassify [] emptyDigitOptions = false ∧
    passwordIsValid otherClassify [] { emptyDigitOptions with useDigits := false } = true := by
  constructor
  · decide
  · decide

/-- C5 (amended): only the case-variance check is guarded against a zero
denominator: when a password has no letters the result never depends on
`maxCaseVariance` (the check is skipped).  The digit- and symbol-proportion
checks on the empty password are not skipped: they evaluate the JavaScript
comparison `0 / 0 >= threshold` (i.e. `NaN >= threshold`), which is false, so
the empty password is valid exactly when neither of them is enabled.  No
check ever crashes: `passwordIsValid` is total. -/
theorem C5_zero_denominators {classify : Char → CharClass}
    (options : PasswordGenerationOptions) :
    (∀ password,
      countClass classify password .lowercase + countClass classify password .uppercase = 0 →
      ∀ v, passwordIsValid classify password { options with maxCaseVariance := v } =
        passwordIsValid classify password options) ∧
    passwordIsValid classify [] options =
      (!options.useDigits && !(options.useSymbols && decide (0 < options.symbols.length))) :=
  ⟨fun _ h v => passwordIsValid_variance_irrelevant h v, passwordIsValid_nil⟩

/-- C5 witness: a letterless password ignores the variance bound, and the
empty password is valid for lowercase-only options. -/
theorem C5_witness :
    passwordIsValid otherClassify ['a'] { lowercaseOptions with maxCaseVariance := 1 } =
      passwordIsValid otherClassify ['a'] lowercaseOptions ∧
    passwordIsValid otherClassify [] lowercaseOptions =
      (!lowercaseOptions.useDigits &&
        !(lowercaseOptions.useSymbols && decide (0 < lowercaseOptions.symbols.length))) := by
  have h := @C5_zero_denominators otherClassify lowercaseOptions
  exact ⟨h.1 ['a'] (by decide) 1, h.2⟩

/-! ### Claim C6 -/

/-- C6 counterexample: with `timeout = 0` and a constant clock the elapsed
time at the first check is `0`, which does not strictly exceed `0` seconds,
yet the call returns null: the code compares `Date.now() - startTime >=
timeout * 1000`, not `>`.  So "returns null exactly when the elapsed time
exceeds timeout seconds" fails at exact equality. -/
theorem C6_counterexample :
    generatePassword otherClassify lowercaseOptions 0 zeroBytes zeroClock 2 1 =
      some (.ok none) ∧
    ¬ (zeroClock 1 - zeroClock 0 > 0 * 1000) := by
  constructor
  · norm_num [generatePassword, generatePasswordLoop, generateRandomString, drawChar,
      getRandomByteInRange, grbLimit, grbValue, passwordChars, lowercaseOptions,
      otherClassify, zeroBytes, zeroClock]
  · norm_num [zeroClock]

/-- C6 (amended): a terminating `generatePassword` run returns null exactly
via the post-candidate timeout check with the comparison `elapsed ≥ timeout *
1000` (greater-or-equal, not strictly greater): (1) a null result implies
some iteration's check fired; (2) if the check fires after the first
candidate, null is returned; (3) the only non-timeout abnormal exits are
entropy errors from the byte layer — a timeout is never thrown; (4) with
`timeout = 0` and a monotone clock, every call whose first candidate
completes returns null. -/
theorem C6_timeout_semantics (classify : Char → CharClass)
    (options : PasswordGenerationOptions) (timeout : ℚ) (bytes : Nat → Except String Nat)
    (now : Nat → ℚ) (innerFuel outerFuel : Nat) :
    (generatePassword classify options timeout bytes now innerFuel outerFuel =
        some (.ok none) →
      ∃ i, i < outerFuel ∧ now (i + 1) - now 0 ≥ timeout * 1000) ∧
    (∀ s posNext,
      generateRandomString options.passwordLength (passwordChars options) bytes 0 innerFuel =
        some (.ok (s, posNext)) →
      now 1 - now 0 ≥ timeout * 1000 → 0 < outerFuel →
      generatePassword classify options timeout bytes now innerFuel outerFuel =
        some (.ok none)) ∧
    (∀ msg, generatePassword classify options timeout bytes now innerFuel outerFuel =
        some (.error msg) →
      ∃ i, bytes i = .error msg) ∧
    (timeout = 0 → (∀ i j, i ≤ j → now i ≤ now j) →
      ∀ s posNext,
        generateRandomString options.passwordLength (passwordChars options) bytes 0 innerFuel =
          some (.ok (s, posNext)) →
        0 < outerFuel →
        generatePassword classify options timeout bytes now innerFuel outerFuel =
          some (.ok none)) := by
  have hdeadline : ∀ s posNext,
      generateRandomString options.passwordLength (passwordChars options) bytes 0 innerFuel =
        some (.ok (s, posNext)) →
      now 1 - now 0 ≥ timeout * 1000 → 0 < outerFuel →
      generatePassword classify options timeout bytes now innerFuel outerFuel =
        some (.ok none) := by
    intro s posNext hgen htime hfuel
    cases outerFuel with
    | zero => omega
    | succ n => exact generatePasswordLoop_deadline hgen htime
  refine ⟨?_, hdeadline, ?_, ?_⟩
  · intro h
    obtain ⟨i, hi1, hi2, hi3⟩ := generatePasswordLoop_null h
    exact ⟨i, by omega, hi3⟩
  · intro msg h
    exact generatePasswordLoop_error h
  · intro htimeout hmono s posNext hgen hfuel
    refine hdeadline s posNext hgen ?_ hfuel
    rw [htimeout]
    have := hmono 0 1 (by omega)
    linarith

/-- C6 witness: a concrete run with timeout 0 whose first candidate completes
returns the null sentinel. -/
theorem C6_witness :
    generatePassword otherClassify lowercaseOptions 0 zeroBytes zeroClock 2 3 =
      some (.ok none) := by
  have hgen : generateRandomString lowercaseOptions.passwordLength
      (passwordChars lowercaseOptions) zeroBytes 0 2 = some (.ok (['a', 'a'], 2)) := by
    norm_num [generateRandomString, drawChar, getRandomByteInRange, grbLimit, grbValue,
      passwordChars, lowercaseOptions, zeroBytes]
  exact (C6_timeout_semantics otherClassify lowercaseOptions 0 zeroBytes zeroClock 2 3).2.2.2
    rfl (fun i j h => le_refl 0) ['a', 'a'] 2 hgen (by omega)

/-! ### Claim C7 -/

/-- C7: when the entropy source reports failure during a refill, the response
handler clears the in-flight promise in the same step and rejects it, so
every awaiting caller receives the failure and a subsequent exhausted call can
start a new refill (the `startRefill` transition is enabled again); the
failure propagates out of `generatePassword` as an error carrying the
message — never as the null timeout sentinel — and the worker's message
handler reports it as the `ERROR` response, distinguishable from `TIMEOUT`
and `OK`. -/
theorem C7_entropy_failure (s : PoolState) (newBuf : List Nat) (msg : String) :
    ((refillFailState s newBuf msg).regenerating = false ∧
      (∀ c, s.callers c = .awaiting →
        (refillFailState s newBuf msg).callers c = .failed msg) ∧
      (∀ c, (refillFailState s newBuf msg).callers c = .idle →
        (refillFailState s newBuf msg).buffer.length ≤ (refillFailState s newBuf msg).numRead →
        PoolStep (refillFailState s newBuf msg)
          (startRefillState (refillFailState s newBuf msg) c))) ∧
    (∀ (classify : Char → CharClass) (options : PasswordGenerationOptions) (timeout : ℚ)
        (bytes : Nat → Except String Nat) (now : Nat → ℚ) (innerFuel outerFuel : Nat),
      0 < options.passwordLength → bytes 0 = .error msg →
      generatePassword classify options timeout bytes now (innerFuel + 1) (outerFuel + 1) =
        some (.error msg)) ∧
    (workerResponse (.error msg) = .error msg ∧
      workerResponse (.error msg) ≠ .timeout ∧
      ∀ p, workerResponse (.error msg) ≠ .ok p) := by
  refine ⟨⟨rfl, ?_, ?_⟩, ?_, rfl, fun h => WorkerResponse.noConfusion h,
    fun p h => WorkerResponse.noConfusion h⟩
  · intro c hc
    simp only [refillFailState]
    rw [hc]
    rfl
  · intro c hc hn
    exact PoolStep.startRefill _ c hc hn rfl
  · intro classify options timeout bytes now innerFuel outerFuel hlen herr
    rw [generatePassword, generatePasswordLoop,
      generateRandomString_first_error hlen herr]

/-- C7 witness: a concrete failing refill fails the awaiting caller, and a
concrete generation run over a failing byte source surfaces the error. -/
theorem C7_witness :
    (refillFailState onePendingPool [] "boom").callers 0 = .failed "boom" ∧
    generatePassword otherClassify lowercaseOptions 1 failBytes zeroClock 1 1 =
      some (.error "boom") := by
  have h := C7_entropy_failure onePendingPool [] "boom"
  exact ⟨h.1.2.1 0 rfl,
    h.2.1 otherClassify lowercaseOptions 1 failBytes zeroClock 0 0 (by decide) rfl⟩

/-! ### Claim C8 -/

/-- C8: the pool invariant `numRead ≤ buffer.length` holds in the initial
state (both 65536) and in every reachable state; `outstanding` equals 1
exactly while `regenerationPromise` is non-null (and 0 otherwise) in every
reachable state; the successful-refill transition resets `numRead` to 0 and
replaces the buffer in the same step; and any transition that clears the
in-flight promise leaves `numRead = 0`. -/
theorem C8_pool_invariant :
    (initPool.numRead = 65536 ∧ initPool.buffer.length = 65536) ∧
    (∀ s, PoolReachable s → s.numRead ≤ s.buffer.length) ∧
    (∀ s, PoolReachable s → s.outstanding = (if s.regenerating then 1 else 0)) ∧
    (∀ s newBuf, (refillOkState s newBuf).numRead = 0 ∧
      (refillOkState s newBuf).buffer = newBuf ∧
      (refillOkState s newBuf).regenerating = false) ∧
    (∀ s t, PoolStep s t → s.regenerating = true → t.regenerating = false →
      t.numRead = 0) := by
  refine ⟨⟨rfl, ?_⟩, fun s h => (poolReachable_inv h).1, fun s h => (poolReachable_inv h).2,
    fun s newBuf => ⟨rfl, rfl, rfl⟩, fun s t hstep h1 h2 => poolStep_refill_completion hstep h1 h2⟩
  simp only [initPool, List.length_replicate]

/-- C8 witness: the invariant holds at the initial pool state. -/
theorem C8_witness : initPool.numRead ≤ initPool.buffer.length ∧
    initPool.outstanding = (if initPool.regenerating then 1 else 0) :=
  ⟨C8_pool_invariant.2.1 initPool PoolReachable.init,
    C8_pool_invariant.2.2.1 initPool PoolReachable.init⟩

/-! ### Claim C9 -/

/-- C9: while a refill is in flight no transition issues a second entropy
request (`issued` is unchanged by every step taken from a regenerating
state — exhausted callers attach via `joinRefill` instead); at most one
request is outstanding in any reachable state, and exactly one while
regenerating; the completion of the refill resumes every awaiting caller at
once; and a resumed caller re-checks exhaustion before reading: it either
reads `buffer[numRead]` when `numRead < buffer.length` or retries the whole
operation (returning to `idle`), never failing. -/
theorem C9_single_refill :
    (∀ s t, PoolStep s t → s.regenerating = true → t.issued = s.issued) ∧
    (∀ s, PoolReachable s → s.outstanding ≤ 1) ∧
    (∀ s, PoolReachable s → s.regenerating = true → s.outstanding = 1) ∧
    (∀ s newBuf c, s.callers c = .awaiting →
      (refillOkState s newBuf).callers c = .resumed) ∧
    (∀ s t c, PoolStep s t → s.callers c = .resumed →
      t.callers c = .resumed ∨
        (s.numRead < s.buffer.length ∧ t.callers c = .done (s.buffer.getD s.numRead 0)) ∨
        (s.buffer.length ≤ s.numRead ∧ t.callers c = .idle)) := by
  refine ⟨fun s t hstep hreg => poolStep_issued_of_regenerating hstep hreg, ?_, ?_, ?_,
    fun s t c hstep hc => poolStep_resumed_cases hstep hc⟩
  · intro s h
    have h2 := (poolReachable_inv h).2
    rw [h2]
    split <;> omega
  · intro s h hreg
    have h2 := (poolReachable_inv h).2
    rw [h2, hreg]
    rfl
  · intro s newBuf c hc
    simp only [refillOkState]
    rw [hc]
    rfl

/-- C9 witness: joining an in-flight refill issues no new request, and the
initial state has at most one outstanding request. -/
theorem C9_witness :
    (joinRefillState exhaustedPool 0).issued = exhaustedPool.issued ∧
    initPool.outstanding ≤ 1 := by
  have h := C9_single_refill
  exact ⟨h.1 exhaustedPool (joinRefillState exhaustedPool 0)
      (PoolStep.joinRefill exhaustedPool 0 rfl (by decide) rfl) rfl,
    h.2.1 initPool PoolReachable.init⟩

/-! ### Claim C10 -/

/-- C10: for every options and every timeout (including 0 and negative
values), a `generatePassword` run that produces a result (password or null)
first completed one whole candidate — `generateRandomString` at
`passwordLength`, i.e. one uniform sample per character position — because
the elapsed-time check runs only after a candidate is built; and a candidate
completed when the deadline has passed is discarded with null returned
without consulting the validator, even when the candidate would have
satisfied the options. -/
theorem C10_candidate_before_null (classify : Char → CharClass)
    (options : PasswordGenerationOptions) (timeout : ℚ) (bytes : Nat → Except String Nat)
    (now : Nat → ℚ) (innerFuel outerFuel : Nat) :
    (∀ x, generatePassword classify options timeout bytes now innerFuel outerFuel =
        some (.ok x) →
      ∃ s posNext,
        generateRandomString options.passwordLength (passwordChars options) bytes 0 innerFuel =
          some (.ok (s, posNext)) ∧
        (passwordChars options ≠ [] → s.length = options.passwordLength)) ∧
    (∀ s posNext,
      generateRandomString options.passwordLength (passwordChars options) bytes 0 innerFuel =
        some (.ok (s, posNext)) →
      passwordIsValid classify s options = true →
      now 1 - now 0 ≥ timeout * 1000 → 0 < outerFuel →
      generatePassword classify options timeout bytes now innerFuel outerFuel =
        some (.ok none)) := by
  constructor
  · intro x h
    obtain ⟨s, posNext, hgen⟩ := generatePasswordLoop_first h
    exact ⟨s, posNext, hgen, fun hne => (generateRandomString_ok hne hgen).1⟩
  · intro s posNext hgen hvalid htime hfuel
    cases outerFuel with
    | zero => omega
    | succ n => exact generatePasswordLoop_deadline hgen htime

/-- C10 witness: with a negative timeout the first (valid) candidate "aa" is
discarded and null returned. -/
theorem C10_witness :
    generatePassword otherClassify lowercaseOptions (-1) zeroBytes zeroClock 2 1 =
      some (.ok none) := by
  have hgen : generateRandomString lowercaseOptions.passwordLength
      (passwordChars lowercaseOptions) zeroBytes 0 2 = some (.ok (['a', 'a'], 2)) := by
    norm_num [generateRandomString, drawChar, getRandomByteInRange, grbLimit, grbValue,
      passwordChars, lowercaseOptions, zeroBytes]
  have hvalid : passwordIsValid otherClassify ['a', 'a'] lowercaseOptions = true := by decide
  exact (C10_candidate_before_null otherClassify lowercaseOptions (-1) zeroBytes zeroClock
    2 1).2 ['a', 'a'] 2 hgen hvalid (by norm_num [zeroClock]) (by omega)
